import Mathlib

/-
Verification of the streaming event reducer of the agent-template repository.

The server-side Stream Producer is the SSE loop of the chat endpoint
(src/app/api/chat/route.ts, POST): it folds upstream agent events into
running state (accumulated text, accumulated thinking, an ordered tool-call
table) and emits one JSON frame per relevant event.  Two client-side Stream
Consumer variants exist in the repository: the ChatInterface component that
appends one timeline message per frame (namespace ConsumerMain below), and
an earlier variant that deduplicates tool calls by id and reconciles the
terminal frame (namespace ConsumerAlt below).

Frames are serialized with JSON.stringify at the moment sendChunk is called,
so every emitted frame is a value snapshot taken at emission time; the
embedding mirrors this by having the fold emit immutable frame values.
-/

set_option maxHeartbeats 1000000

namespace AgentStream

/-- JSON-like scalar values used for tool inputs and tool results. -/
inductive JVal where
  | num (n : Int)
  | str (s : String)
  | bool (b : Bool)
  deriving DecidableEq, Repr

/-- A shallow JSON object (Record<string, unknown>): an ordered association
list of string keys to values, as used for tool-call inputs. -/
abbrev Record := List (String × JVal)

/-- Key lookup in a record, modelling JS property access obj[k]. -/
def recLookup : Record → String → Option JVal
  | [], _ => none
  | (k, v) :: rest, key => if k = key then some v else recLookup rest key

/-- Shallow merge of two records, modelling the JS object spread
with old fields first and fresh fields second: keys present in `fresh`
overwrite same-named keys of `old` (in place), keys of `fresh` absent from
`old` are appended in order, and keys of `old` absent from `fresh` are
preserved (route.ts line 265). -/
def mergeInput (old fresh : Record) : Record :=
  (old.map (fun kv =>
    match recLookup fresh kv.1 with
    | some v => (kv.1, v)
    | none => kv))
  ++ fresh.filter (fun kv => (recLookup old kv.1).isNone)

/-- One entry of the producer's tool-call table (route.ts line 192):
id, name, input record, optional result, status string, and the
Date.now()-style timestamp assigned at first sight (modelled by a tick). -/
structure ToolCall where
  id : String
  name : String
  input : Record
  result : Option JVal
  status : String
  timestamp : Option Nat
  deriving DecidableEq, Repr

/-- A normalized SSE frame as emitted by sendChunk.  The `assistant` and
`done` frames carry the final text, the accumulated thinking when non-empty,
and the tool table when non-empty. -/
inductive Frame where
  | thinking (content : String)
  | contentDelta (delta : String)
  | toolCall (toolCalls : List ToolCall)
  | toolResult (toolUseId : String) (result : JVal) (toolCalls : List ToolCall)
  | assistant (content : String) (thinking : Option String)
      (toolCalls : Option (List ToolCall))
  | done (content : String) (thinking : Option String)
      (toolCalls : Option (List ToolCall))
  | error (message : String)
  deriving DecidableEq, Repr

/-- One content part of the final consolidated assistant message.  A name or
input that is absent in the JSON is modelled by "" resp. none, matching the
JS truthiness tests the route performs on them. -/
inductive Part where
  | text (s : String)
  | toolUse (id : String) (name : String) (input : Option Record)
  deriving DecidableEq, Repr

/-- Upstream events consumed by the producer loop, already classified the
way route.ts classifies raw SDK messages:
thinkingStart is a content_block_start whose block type is thinking;
thinkingDelta / textDelta are content_block_delta events;
toolFrag is a tool_use_delta (or any delta bearing a tool_use_id), with the
resolved id (tool_use_id or id, "" when absent);
assistantMsg is the final consolidated assistant message with its content
parts; resultEvent is a result message with its tool_use_id and subtype. -/
inductive UEvent where
  | thinkingStart
  | thinkingDelta (s : String)
  | textDelta (s : String)
  | toolFrag (id : String) (name : String) (input : Option Record)
  | assistantMsg (parts : List Part)
  | resultEvent (toolUseId : String) (content : JVal) (subtype : String)
  deriving DecidableEq, Repr

/-- The producer's running state: accumulated assistant text, accumulated
thinking text, the ordered tool-call table, and a tick counter standing in
for Date.now().  The id-to-index map of the source is kept in lockstep with
the array and always maps an id to the unique position holding it, so it is
modelled by first-match search on the list itself. -/
structure PState where
  assistantMessage : String
  thinking : String
  toolCalls : List ToolCall
  tick : Nat
  deriving DecidableEq, Repr

/-- Update the first (and, by the table invariant, only) entry bearing the
given id, leaving the rest of the table untouched: the in-place update
toolCalls[existingIndex] of the source. -/
def updateFirst (f : ToolCall → ToolCall) (toolId : String) :
    List ToolCall → List ToolCall
  | [] => []
  | tc :: rest =>
      if tc.id = toolId then f tc :: rest
      else tc :: updateFirst f toolId rest

/-- Whether the table has an entry with the given id
(toolCallsMap.get(toolId) !== undefined). -/
def containsId (table : List ToolCall) (toolId : String) : Bool :=
  table.any (fun tc => tc.id == toolId)

/-- The entry of the table bearing the given id, if any. -/
def findCall (table : List ToolCall) (toolId : String) : Option ToolCall :=
  table.find? (fun tc => tc.id == toolId)

/-- Merge a streaming tool fragment into an existing entry
(route.ts lines 262-266): the name is overwritten when the fragment carries
a truthy one, and the input is shallow-merged. -/
def fragUpdate (name : String) (input : Option Record) (tc : ToolCall) :
    ToolCall :=
  { tc with
    name := if name = "" then tc.name else name
    input :=
      match input with
      | some r => mergeInput tc.input r
      | none => tc.input }

/-- Merge a tool_use part of the final assistant message into an existing
entry (route.ts lines 364-366): the name is overwritten when truthy, and the
input is wholesale-replaced when present. -/
def finalUpdate (name : String) (input : Option Record) (tc : ToolCall) :
    ToolCall :=
  { tc with
    name := if name = "" then tc.name else name
    input :=
      match input with
      | some r => r
      | none => tc.input }

/-- A freshly created table entry (route.ts lines 269-275): pending status,
input defaulted to the empty object, timestamp from Date.now(). -/
def newCall (toolId name : String) (input : Option Record) (tick : Nat) :
    ToolCall :=
  ⟨toolId, name, input.getD [], none, "pending", some tick⟩

/-- Scan of the final assistant message's content for tool_use parts
(route.ts lines 343-369).  Returns the updated table, the advanced tick
(one Date.now() call per creation) and the hasNewToolCalls flag. -/
def scanFinal : List Part → List ToolCall → Nat → List ToolCall × Nat × Bool
  | [], table, tick => (table, tick, false)
  | .text _ :: rest, table, tick => scanFinal rest table tick
  | .toolUse pid pname pinput :: rest, table, tick =>
      if pid = "" then scanFinal rest table tick
      else if containsId table pid then
        scanFinal rest (updateFirst (finalUpdate pname pinput) pid table) tick
      else
        let res := scanFinal rest (table ++ [newCall pid pname pinput tick]) (tick + 1)
        (res.1, res.2.1, true)

/-- The text extracted from the final assistant message: the concatenation
of its text parts (route.ts lines 336-339). -/
def textContent (parts : List Part) : String :=
  String.join (parts.filterMap (fun p =>
    match p with
    | .text s => some s
    | .toolUse _ _ _ => none))

/-- JS `s || undefined` on a string field. -/
def optStr (s : String) : Option String :=
  if s = "" then none else some s

/-- JS `table.length > 0 ? [...table] : undefined`. -/
def optTable (table : List ToolCall) : Option (List ToolCall) :=
  if table = [] then none else some table

/-- One iteration of the producer's event loop (route.ts lines 208-420):
the state transition together with the frames sent by sendChunk during that
iteration.  sendChunk serializes its argument immediately, so each emitted
frame is the value snapshot taken at that point. -/
def pstep (st : PState) (e : UEvent) : PState × List Frame :=
  match e with
  | .thinkingStart => ({ st with thinking := "" }, [])
  | .thinkingDelta s =>
      if s = "" then (st, [])
      else
        let th := st.thinking ++ s
        ({ st with thinking := th }, [Frame.thinking th])
  | .textDelta s =>
      if s = "" then (st, [])
      else
        ({ st with assistantMessage := st.assistantMessage ++ s },
          [Frame.contentDelta s])
  | .toolFrag toolId name input =>
      if toolId = "" then (st, [])
      else if containsId st.toolCalls toolId then
        let table := updateFirst (fragUpdate name input) toolId st.toolCalls
        ({ st with toolCalls := table }, [Frame.toolCall table])
      else
        let table := st.toolCalls ++ [newCall toolId name input st.tick]
        ({ st with toolCalls := table, tick := st.tick + 1 },
          [Frame.toolCall table])
  | .assistantMsg parts =>
      let text := textContent parts
      let scan := scanFinal parts st.toolCalls st.tick
      let table := scan.1
      let announce :=
        if scan.2.2 && !table.isEmpty then [Frame.toolCall table] else []
      let finalFrames :=
        if text = "" then []
        else [Frame.assistant text (optStr st.thinking) (optTable table)]
      ({ st with assistantMessage := text, toolCalls := table, tick := scan.2.1 },
        announce ++ finalFrames)
  | .resultEvent toolUseId content subtype =>
      if toolUseId = "" then (st, [])
      else if containsId st.toolCalls toolUseId then
        let table := updateFirst
          (fun tc =>
            { tc with
              result := some content
              status := if subtype = "success" then "success" else "error" })
          toolUseId st.toolCalls
        ({ st with toolCalls := table },
          [Frame.toolResult toolUseId content table])
      else (st, [])

/-- The producer's fold over the whole upstream event sequence, collecting
the emitted frames in order. -/
def pfold (st : PState) (events : List UEvent) : PState × List Frame :=
  match events with
  | [] => (st, [])
  | e :: rest =>
      let step := pstep st e
      let tail := pfold step.1 rest
      (tail.1, step.2 ++ tail.2)

/-- The initial producer state of one request. -/
def pInit : PState := ⟨"", "", [], 0⟩

/-- The terminal frame sent after the upstream iterator exhausts
(route.ts lines 423-430). -/
def doneFrame (st : PState) : Frame :=
  Frame.done st.assistantMessage (optStr st.thinking) (optTable st.toolCalls)

/-- A full normal run of the producer: fold all upstream events, then emit
the done frame. -/
def producerRun (events : List UEvent) : PState × List Frame :=
  let run := pfold pInit events
  (run.1, run.2 ++ [doneFrame run.1])

/-! ### The chat endpoint preamble (route.ts lines 18-60)

The POST handler checks the credential before parsing the body, then
classifies the body, and only afterwards starts the SSE stream.  The whole
handler sits in a try/catch whose catch returns a non-streaming JSON error
with status 500. -/

/-- A JSON value, as produced by request.json(). -/
inductive Json where
  | null
  | jbool (b : Bool)
  | jnum (n : Int)
  | jstr (s : String)
  | jarr (elements : List Json)
  | jobj (fields : List (String × Json))

/-- Lookup of a key among the fields of a JSON object. -/
def objLookup : List (String × Json) → String → Option Json
  | [], _ => none
  | (k, v) :: rest, key => if k = key then some v else objLookup rest key

/-- JS property access obj[key] on a non-null value: a field of an object,
undefined (none) on every other value. -/
def Json.getField : Json → String → Option Json
  | .jobj fields, key => objLookup fields key
  | _, _ => none

/-- The TypeError message raised by JS property access on null. -/
def nullReadMsg (key : String) : String :=
  "Cannot read properties of null (reading " ++ key ++ ")"

/-- JS property access including its failure mode: accessing a property of
null throws a TypeError, which the handler's catch-all turns into a 500. -/
def jsGet (j : Json) (key : String) : Except String (Option Json) :=
  match j with
  | .null => .error (nullReadMsg key)
  | _ => .ok (j.getField key)

/-- JS String.prototype.trim: strip leading and trailing whitespace
(executable stand-in for the source's apiKey.trim()). -/
def jsTrim (s : String) : String :=
  ⟨(((s.data.dropWhile Char.isWhitespace).reverse).dropWhile Char.isWhitespace).reverse⟩

/-- Whether a messages-array element has role user
(msg.role === 'user' in the filter at route.ts line 52). -/
def isUserMsg (j : Json) : Bool :=
  match j.getField "role" with
  | some (.jstr r) => r == "user"
  | _ => false

/-- The outcome of the POST preamble: either a non-streaming JSON error
response, or the start of SSE streaming over the extracted messages
(no error path ever reaches the stream constructor). -/
inductive PostResult where
  | errJson (status : Nat) (error : String)
  | stream (messages : List Json)

/-- Error message of the missing-credential 500 (route.ts line 27). -/
def apiKeyMissingMsg : String :=
  "ANTHROPIC_API_KEY is not configured. Please check environment variables."

/-- Error message of the malformed-body 400 (route.ts line 45). -/
def badBodyMsg : String :=
  "Request must include either message (string) or messages (array) field"

/-- Error message of the no-user-message 400 (route.ts line 57). -/
def noUserMsg : String := "No user message found in request"

/-- After the messages list is fixed, the handler requires a last user
message (route.ts lines 51-60) and then opens the SSE stream. -/
def proceedMessages (messages : List Json) : PostResult :=
  match (messages.filter isUserMsg).getLast? with
  | none => PostResult.errJson 400 noUserMsg
  | some _ => PostResult.stream messages

/-- The body of the POST try block (route.ts lines 20-48): credential check
first, then body classification.  `body.messages && Array.isArray(...)`
holds exactly when the field is a JSON array (arrays are truthy), and
`body.message && typeof === 'string'` holds exactly when the field is a
non-empty JSON string (the empty string is falsy). -/
def chatPOSTCore (apiKey : Option String) (body : Json) :
    Except String PostResult :=
  if jsTrim (apiKey.getD "") = "" then
    .ok (PostResult.errJson 500 apiKeyMissingMsg)
  else
    match jsGet body "messages" with
    | .error e => .error e
    | .ok mf =>
      match mf with
      | some (Json.jarr xs) => .ok (proceedMessages xs)
      | _ =>
        match jsGet body "message" with
        | .error e => .error e
        | .ok mg =>
          match mg with
          | some (Json.jstr s) =>
              if s = "" then .ok (PostResult.errJson 400 badBodyMsg)
              else .ok (proceedMessages
                [Json.jobj [("role", Json.jstr "user"), ("content", Json.jstr s)]])
          | _ => .ok (PostResult.errJson 400 badBodyMsg)

/-- The POST handler with its catch-all (route.ts lines 453-460): a thrown
error becomes a non-streaming 500 JSON response carrying the message. -/
def chatPOST (apiKey : Option String) (body : Json) : PostResult :=
  match chatPOSTCore apiKey body with
  | .ok r => r
  | .error msg => PostResult.errJson 500 msg

/-! ### Consumer timeline entries (shared by both client variants) -/

/-- One timeline message of the client (the Message interface of
ChatInterface.tsx): stable id, role, optional content/toolCall/thinking,
event type tag, and a creation timestamp (a Date.now() stand-in). -/
structure Msg where
  id : String
  role : String
  content : Option String
  toolCall : Option ToolCall
  thinking : Option String
  eventType : String
  timestamp : Nat
  deriving DecidableEq, Repr

/-- The tool ids already represented by a timeline entry
(prev.filter(m => m.toolCall).map(m => m.toolCall.id)). -/
def existingToolIds (ms : List Msg) : List String :=
  ms.filterMap (fun m => m.toolCall.map (fun tc => tc.id))

/-- Whether a message carries the tool call with the given id. -/
def msgHasTool (toolUseId : String) (m : Msg) : Bool :=
  match m.toolCall with
  | some tc => tc.id == toolUseId
  | none => false

/-- Left fold of string concatenation, so that the accumulated text after a
delta sequence is sconcatFrom of the starting accumulator. -/
def sconcatFrom (acc : String) : List String → String
  | [] => acc
  | d :: rest => sconcatFrom (acc ++ d) rest

/-- The concatenation d1 ++ ... ++ dn of a delta sequence. -/
def sconcat (ds : List String) : String := sconcatFrom "" ds

namespace ConsumerMain

/-! The SSE loop of src/components/chat/ChatInterface.tsx (sendMessage,
lines 164-308): every frame either appends a fresh timeline message or
updates the single open content entry in place. -/

/-- Client state inside one sendMessage call: the timeline, the content
accumulator and the id of the currently open content entry, the loading
flag, and a tick standing in for Date.now() (advanced at each point the
source calls it to mint a message id). -/
structure CState where
  messages : List Msg
  contentAccumulator : String
  contentMessageId : Option String
  isLoading : Bool
  tick : Nat
  deriving DecidableEq, Repr

/-- The id minted for a fresh content entry (`content-` + Date.now()). -/
def contentIdFor (tick : Nat) : String := "content-" ++ toString tick

/-- The per-frame transition of the ChatInterface.tsx consumer. -/
def cstep (st : CState) (f : Frame) : CState :=
  match f with
  | .contentDelta d =>
      let acc := st.contentAccumulator ++ d
      (match st.contentMessageId with
       | none =>
          let mid := contentIdFor st.tick
          { st with
            contentAccumulator := acc
            contentMessageId := some mid
            messages := st.messages ++
              [⟨mid, "assistant", some acc, none, none, "content_delta", st.tick⟩]
            tick := st.tick + 1 }
       | some mid =>
          { st with
            contentAccumulator := acc
            messages := st.messages.map (fun m =>
              if m.id = mid then { m with content := some acc } else m) })
  | .thinking c =>
      { st with
        messages := st.messages ++
          [⟨"thinking-" ++ toString st.tick, "assistant", none, none, some c,
            "thinking", st.tick⟩]
        tick := st.tick + 1 }
  | .toolCall tcs =>
      (match tcs with
       | [] => st
       | tc :: _ =>
          { st with
            messages := st.messages ++
              [⟨"tool-call-" ++ toString st.tick, "assistant", none, some tc,
                none, "tool_call", st.tick⟩]
            tick := st.tick + 1 })
  | .toolResult toolUseId result _ =>
      { st with
        messages := st.messages ++
          [⟨"tool-result-" ++ toString st.tick, "assistant", none,
            some ⟨toolUseId, "Tool Result", [], some result, "success", none⟩,
            none, "tool_result", st.tick⟩]
        tick := st.tick + 1 }
  | .assistant _ _ _ =>
      { st with contentAccumulator := "", contentMessageId := none }
  | .done _ _ _ =>
      { st with contentAccumulator := "", contentMessageId := none }
  | .error e =>
      { st with
        messages := st.messages ++
          [⟨"error-" ++ toString st.tick, "assistant",
            some (if e = "" then "An error occurred" else e), none, none,
            "error", st.tick⟩]
        tick := st.tick + 1 }

/-- Processing of a frame sequence. -/
def crun (st : CState) (fs : List Frame) : CState :=
  match fs with
  | [] => st
  | f :: rest => crun (cstep st f) rest

/-- One whole sendMessage streaming phase: process every frame, then the
finally block turns the loading indicator off. -/
def sendMessageRun (st : CState) (fs : List Frame) : CState :=
  { crun st fs with isLoading := false }

end ConsumerMain

namespace ConsumerAlt

/-! The SSE loop of the earlier ChatInterface variant (src/unnamed/part_002,
sendMessage): a single pre-created assistant message accumulates content and
thinking in place, tool frames are deduplicated by id against the timeline,
and the terminal frame reconciles tool calls never announced before. -/

/-- Client state inside one sendMessage call of the variant: the timeline
(already containing the pre-created assistant message), that message's id
and start time, the loading flag, and a Date.now() stand-in. -/
structure VState where
  messages : List Msg
  assistantMessageId : String
  assistantMessageStartTime : Nat
  isLoading : Bool
  now : Nat
  deriving DecidableEq, Repr

/-- tc.status || 'pending'. -/
def statusOr (s : String) : String := if s = "" then "pending" else s

/-- A fresh tool-call timeline message created from a frame's table entry. -/
def mkToolMsg (tc : ToolCall) (ts : Nat) (now : Nat) : Msg :=
  ⟨"tool-" ++ tc.id ++ "-" ++ toString now, "assistant", none,
    some ⟨tc.id, tc.name, tc.input, tc.result, statusOr tc.status, some ts⟩,
    none, "tool_call", ts⟩

/-- The new messages created for the table entries whose id is not yet
represented (part_002 lines 179-202): the existing-id set is computed once
per frame, and each creation advances the per-frame counter used for the
sequential timestamps base + counter * 100. -/
def mkToolMsgs : List ToolCall → List String → Nat → Nat → Nat → List Msg
  | [], _, _, _, _ => []
  | tc :: rest, existing, base, now, counter =>
      if existing.contains tc.id then mkToolMsgs rest existing base now counter
      else mkToolMsg tc (base + counter * 100) now ::
        mkToolMsgs rest existing base now (counter + 1)

/-- The terminal (done/assistant) handler (part_002 lines 251-311): update
the assistant message's content and thinking (JS truthiness: empty strings
keep the old value), then create entries for tool ids of the frame's list
not yet represented, backdated to startTime + 500 + counter * 100. -/
def vterminal (st : VState) (c : String) (th : Option String)
    (tcs : Option (List ToolCall)) : VState :=
  let assistantMsg := st.messages.find? (fun m => m.id == st.assistantMessageId)
  let updated := st.messages.map (fun m =>
    if m.id = st.assistantMessageId then
      { m with
        content := if c = "" then m.content else some c
        thinking :=
          match th with
          | some t => if t = "" then m.thinking else some t
          | none => m.thinking }
    else m)
  match tcs, assistantMsg with
  | some l, some am =>
      { st with messages :=
          updated ++ mkToolMsgs l (existingToolIds updated) (am.timestamp + 500) st.now 0 }
  | _, _ => { st with messages := updated }

/-- The per-frame transition of the part_002 consumer (error frames are
handled at the run level, where the thrown error escapes the loop). -/
def vstep (st : VState) (f : Frame) : VState :=
  match f with
  | .thinking c =>
      { st with messages := st.messages.map (fun m =>
          if m.id = st.assistantMessageId then { m with thinking := some c } else m) }
  | .contentDelta d =>
      { st with messages := st.messages.map (fun m =>
          if m.id = st.assistantMessageId then
            { m with content := some ((m.content.getD "") ++ d) }
          else m) }
  | .toolCall tcs =>
      let existing := existingToolIds st.messages
      let startTime :=
        match st.messages.find? (fun m => m.id == st.assistantMessageId) with
        | some m => m.timestamp
        | none => st.assistantMessageStartTime
      let timeSinceStart := st.now - startTime
      let base :=
        if timeSinceStart < 1000 then startTime + 300 + timeSinceStart / 2
        else startTime + 500
      { st with messages := st.messages ++ mkToolMsgs tcs existing base st.now 0 }
  | .toolResult toolUseId result _ =>
      let orig := st.messages.find? (msgHasTool toolUseId)
      let resultExists := st.messages.any (fun m =>
        msgHasTool toolUseId m && m.eventType == "tool_result")
      (match orig with
       | some om =>
          if resultExists then st
          else
            match om.toolCall with
            | some otc =>
                let ts := om.timestamp + 500
                { st with messages := st.messages ++
                    [⟨"result-" ++ toolUseId ++ "-" ++ toString st.now, "assistant",
                      none,
                      some ⟨toolUseId, otc.name, otc.input, some result, "success", some ts⟩,
                      none, "tool_result", ts⟩] }
            | none => st
       | none => st)
  | .assistant c th tcs => vterminal st c th tcs
  | .done c th tcs => vterminal st c th tcs
  | .error _ => st

/-- Processing of a frame sequence: an error frame throws, the catch appends
an error message and processing stops, and the finally block turns the
loading indicator off on every path. -/
def vrun (st : VState) (fs : List Frame) : VState :=
  match fs with
  | [] => { st with isLoading := false }
  | .error e :: _ =>
      { st with
        messages := st.messages ++
          [⟨"error-" ++ toString st.now, "assistant", some e, none, none,
            "message", st.now⟩]
        isLoading := false }
  | f :: rest => vrun (vstep st f) rest

/-- Result-kind entries of the timeline for a given tool id. -/
def resultCount (ms : List Msg) (toolUseId : String) : Nat :=
  (ms.filter (fun m => msgHasTool toolUseId m && m.eventType == "tool_result")).length

end ConsumerAlt

/-! ### Basic lemmas about the producer's table operations -/

theorem fragUpdate_id (name : String) (input : Option Record) (tc : ToolCall) :
    (fragUpdate name input tc).id = tc.id := rfl

theorem finalUpdate_id (name : String) (input : Option Record) (tc : ToolCall) :
    (finalUpdate name input tc).id = tc.id := rfl

theorem updateFirst_map_id (f : ToolCall → ToolCall) (toolId : String)
    (hf : ∀ tc, (f tc).id = tc.id) :
    ∀ l : List ToolCall, (updateFirst f toolId l).map ToolCall.id = l.map ToolCall.id
  | [] => rfl
  | tc :: rest => by
      by_cases h : tc.id = toolId
      · simp [updateFirst, h, hf]
      · simp [updateFirst, h, updateFirst_map_id f toolId hf rest]

theorem updateFirst_length (f : ToolCall → ToolCall) (toolId : String) :
    ∀ l : List ToolCall, (updateFirst f toolId l).length = l.length
  | [] => rfl
  | tc :: rest => by
      by_cases h : tc.id = toolId
      · simp [updateFirst, h]
      · simp [updateFirst, h, updateFirst_length f toolId rest]

theorem containsId_eq_isSome_findCall (toolId : String) :
    ∀ l : List ToolCall, containsId l toolId = (findCall l toolId).isSome
  | [] => rfl
  | tc :: rest => by
      have ih := containsId_eq_isSome_findCall toolId rest
      simp only [containsId, findCall] at ih ⊢
      by_cases h : tc.id = toolId
      · have hb : (tc.id == toolId) = true := by simp [h]
        simp [hb]
      · have hb : (tc.id == toolId) = false := by simp [h]
        simp [hb, ih]

theorem findCall_updateFirst (f : ToolCall → ToolCall) (toolId : String)
    (hf : ∀ x, (f x).id = x.id) :
    ∀ (l : List ToolCall) (tc : ToolCall), findCall l toolId = some tc →
      findCall (updateFirst f toolId l) toolId = some (f tc)
  | [], tc, h => by simp [findCall] at h
  | x :: rest, tc, h => by
      by_cases hx : x.id = toolId
      · have hb : (x.id == toolId) = true := by simp [hx]
        have hx' : tc = x := by
          simpa [findCall, List.find?_cons_of_pos, hb] using h.symm
        have hfb : ((f x).id == toolId) = true := by simp [hf, hx]
        simp [updateFirst, hx, findCall, List.find?_cons_of_pos, hfb, hx']
      · have hb : (x.id == toolId) = false := by simp [hx]
        have h' : findCall rest toolId = some tc := by
          simpa [findCall, List.find?_cons_of_neg, hb] using h
        simp [updateFirst, hx, findCall, List.find?_cons_of_neg, hb]
        simpa [findCall] using findCall_updateFirst f toolId hf rest tc h'

/-! ### Lemmas about record lookup and the shallow merge -/

theorem recLookup_append (b : Record) (k : String) :
    ∀ a : Record, recLookup (a ++ b) k =
      ((recLookup a k).orElse (fun _ => recLookup b k))
  | [] => rfl
  | (k0, v0) :: rest => by
      by_cases h : k0 = k
      · simp [recLookup, h, Option.orElse]
      · simp [recLookup, h, recLookup_append b k rest]

theorem recLookup_mapMerge (fresh : Record) (k : String) :
    ∀ old : Record,
      recLookup (old.map (fun kv =>
        match recLookup fresh kv.1 with
        | some v => (kv.1, v)
        | none => kv)) k =
      (match recLookup old k with
       | some v =>
          some (match recLookup fresh k with
                | some w => w
                | none => v)
       | none => none)
  | [] => rfl
  | (k0, v0) :: rest => by
      by_cases h : k0 = k
      · subst h
        cases hf : recLookup fresh k0 <;> simp [recLookup, hf]
      · cases hf : recLookup fresh k0 <;>
          simp [recLookup, h, hf, recLookup_mapMerge fresh k rest]

theorem recLookup_filterAbsent (old : Record) (k : String) :
    ∀ fresh : Record,
      recLookup (fresh.filter (fun kv => (recLookup old kv.1).isNone)) k =
      (match recLookup old k with
       | some _ => none
       | none => recLookup fresh k)
  | [] => by cases recLookup old k <;> rfl
  | (k1, v1) :: rest => by
      by_cases h : k1 = k
      · subst h
        cases ho : recLookup old k1 <;>
          simp [List.filter_cons, ho, recLookup, recLookup_filterAbsent old k1 rest]
      · cases hp : (recLookup old k1).isNone <;>
          cases ho : recLookup old k <;>
            simp [List.filter_cons, hp, ho, recLookup, h,
              recLookup_filterAbsent old k rest]

theorem recLookup_mergeInput (old fresh : Record) (k : String) :
    recLookup (mergeInput old fresh) k =
      ((recLookup fresh k).orElse (fun _ => recLookup old k)) := by
  rw [mergeInput, recLookup_append, recLookup_mapMerge, recLookup_filterAbsent]
  cases ho : recLookup old k <;> cases hf : recLookup fresh k <;>
    simp [Option.orElse]

/-! ### Lemmas about the final-message scan -/

theorem scanFinal_length : ∀ (parts : List Part) (table : List ToolCall) (tick : Nat),
    table.length ≤ (scanFinal parts table tick).1.length
  | [], _, _ => le_refl _
  | .text _ :: rest, table, tick => scanFinal_length rest table tick
  | .toolUse pid pname pinput :: rest, table, tick => by
      by_cases h1 : pid = ""
      · simpa [scanFinal, h1] using scanFinal_length rest table tick
      · by_cases h2 : containsId table pid = true
        · have ih := scanFinal_length rest (updateFirst (finalUpdate pname pinput) pid table) tick
          rw [updateFirst_length] at ih
          simpa [scanFinal, h1, h2] using ih
        · have ih := scanFinal_length rest (table ++ [newCall pid pname pinput tick]) (tick + 1)
          rw [List.length_append] at ih
          have : table.length ≤ (scanFinal rest (table ++ [newCall pid pname pinput tick]) (tick + 1)).1.length :=
            le_trans (Nat.le_add_right _ _) ih
          simpa [scanFinal, h1, h2] using this

theorem scanFinal_ne_nil_of_hasNew :
    ∀ (parts : List Part) (table : List ToolCall) (tick : Nat),
    (scanFinal parts table tick).2.2 = true → (scanFinal parts table tick).1 ≠ []
  | [], _, _, h => by simp [scanFinal] at h
  | .text _ :: rest, table, tick, h =>
      scanFinal_ne_nil_of_hasNew rest table tick h
  | .toolUse pid pname pinput :: rest, table, tick, h => by
      by_cases h1 : pid = ""
      · rw [scanFinal, if_pos h1] at h ⊢
        exact scanFinal_ne_nil_of_hasNew rest table tick h
      · by_cases h2 : containsId table pid = true
        · rw [scanFinal, if_neg h1, if_pos h2] at h ⊢
          exact scanFinal_ne_nil_of_hasNew rest _ tick h
        · rw [scanFinal, if_neg h1, if_neg h2]
          have hlen := scanFinal_length rest (table ++ [newCall pid pname pinput tick]) (tick + 1)
          rw [List.length_append] at hlen
          have hpos : 0 < (scanFinal rest (table ++ [newCall pid pname pinput tick]) (tick + 1)).1.length :=
            lt_of_lt_of_le (Nat.lt_of_lt_of_le (Nat.zero_lt_one) (Nat.le_add_left _ _)) hlen
          exact List.ne_nil_of_length_pos hpos

theorem scanFinal_map_id_of_not_new :
    ∀ (parts : List Part) (table : List ToolCall) (tick : Nat),
    (scanFinal parts table tick).2.2 = false →
    (scanFinal parts table tick).1.map ToolCall.id = table.map ToolCall.id
  | [], _, _, _ => rfl
  | .text _ :: rest, table, tick, h =>
      scanFinal_map_id_of_not_new rest table tick h
  | .toolUse pid pname pinput :: rest, table, tick, h => by
      by_cases h1 : pid = ""
      · rw [scanFinal, if_pos h1] at h ⊢
        exact scanFinal_map_id_of_not_new rest table tick h
      · by_cases h2 : containsId table pid = true
        · rw [scanFinal, if_neg h1, if_pos h2] at h ⊢
          rw [scanFinal_map_id_of_not_new rest _ tick h]
          exact updateFirst_map_id _ pid (finalUpdate_id pname pinput) table
        · rw [scanFinal, if_neg h1, if_neg h2] at h
          simp at h

/-! ### Lemmas about the producer fold -/

theorem pfold_append (st : PState) (es more : List UEvent) :
    pfold st (es ++ more) =
      ((pfold (pfold st es).1 more).1,
        (pfold st es).2 ++ (pfold (pfold st es).1 more).2) := by
  induction es generalizing st with
  | nil => simp [pfold]
  | cons e rest ih => simp [pfold, ih, List.append_assoc]

/-- A tool id has been announced by a dedicated tool_call frame among the
emitted frames. -/
def idAnnounced (frames : List Frame) (toolId : String) : Prop :=
  ∃ tcs, Frame.toolCall tcs ∈ frames ∧ toolId ∈ tcs.map ToolCall.id

/-- Every id of the producer's current table has been announced. -/
def tableAnnounced (st : PState) (frames : List Frame) : Prop :=
  ∀ toolId ∈ st.toolCalls.map ToolCall.id, idAnnounced frames toolId

theorem idAnnounced_mono (frames more : List Frame) (toolId : String)
    (h : idAnnounced frames toolId) : idAnnounced (frames ++ more) toolId := by
  obtain ⟨tcs, hmem, hid⟩ := h
  exact ⟨tcs, List.mem_append_left _ hmem, hid⟩

theorem pstep_announced (st : PState) (e : UEvent) (frames : List Frame)
    (h : tableAnnounced st frames) :
    tableAnnounced (pstep st e).1 (frames ++ (pstep st e).2) := by
  have hmono : tableAnnounced st (frames ++ (pstep st e).2) :=
    fun tid htid => idAnnounced_mono _ _ _ (h tid htid)
  cases e with
  | thinkingStart => exact hmono
  | thinkingDelta s =>
      by_cases hs : s = ""
      · simpa only [pstep, if_pos hs] using hmono
      · simpa only [pstep, if_neg hs] using hmono
  | textDelta s =>
      by_cases hs : s = ""
      · simpa only [pstep, if_pos hs] using hmono
      · simpa only [pstep, if_neg hs] using hmono
  | toolFrag toolId name input =>
      by_cases hid : toolId = ""
      · simpa only [pstep, if_pos hid] using hmono
      · by_cases hc : containsId st.toolCalls toolId = true
        · simp only [pstep, if_neg hid, if_pos hc]
          intro tid htid
          exact ⟨updateFirst (fragUpdate name input) toolId st.toolCalls,
            List.mem_append_right _ (List.mem_singleton.mpr rfl), htid⟩
        · simp only [pstep, if_neg hid, if_neg hc]
          intro tid htid
          exact ⟨st.toolCalls ++ [newCall toolId name input st.tick],
            List.mem_append_right _ (List.mem_singleton.mpr rfl), htid⟩
  | assistantMsg parts =>
      simp only [pstep]
      intro tid htid
      by_cases hnew : (scanFinal parts st.toolCalls st.tick).2.2 = true
      · have hne : (scanFinal parts st.toolCalls st.tick).1 ≠ [] :=
          scanFinal_ne_nil_of_hasNew parts st.toolCalls st.tick hnew
        have hemp : (scanFinal parts st.toolCalls st.tick).1.isEmpty = false := by
          simpa [List.isEmpty_iff] using hne
        refine ⟨(scanFinal parts st.toolCalls st.tick).1, ?_, htid⟩
        rw [hnew, hemp]
        simp
      · have hfalse : (scanFinal parts st.toolCalls st.tick).2.2 = false := by
          simpa using hnew
        have hids := scanFinal_map_id_of_not_new parts st.toolCalls st.tick hfalse
        rw [hids] at htid
        exact idAnnounced_mono _ _ _ (h tid htid)
  | resultEvent toolUseId content subtype =>
      by_cases hid : toolUseId = ""
      · simpa only [pstep, if_pos hid] using hmono
      · by_cases hc : containsId st.toolCalls toolUseId = true
        · simp only [pstep, if_neg hid, if_pos hc]
          intro tid htid
          have hids := updateFirst_map_id
            (fun tc =>
              { tc with
                result := some content
                status := if subtype = "success" then "success" else "error" })
            toolUseId (fun tc => rfl) st.toolCalls
          rw [hids] at htid
          exact idAnnounced_mono _ _ _ (h tid htid)
        · simpa only [pstep, if_neg hid, if_neg hc] using hmono

theorem pfold_announced :
    ∀ (events : List UEvent) (st : PState) (frames : List Frame),
    tableAnnounced st frames →
    tableAnnounced (pfold st events).1 (frames ++ (pfold st events).2)
  | [], st, frames, h => by simpa [pfold] using h
  | e :: rest, st, frames, h => by
      have h1 := pstep_announced st e frames h
      have h2 := pfold_announced rest (pstep st e).1 (frames ++ (pstep st e).2) h1
      simpa [pfold, List.append_assoc] using h2

/-! ### Claim theorems about the producer -/

/-- C1.  For every run of the Producer, a thinking fragment appends to the
thinking accumulator and emits a thinking frame carrying the full
accumulated thinking text so far (a complete replacement value), while a
text fragment emits a content_delta frame carrying only the incremental
delta, never the accumulated value; in particular, for upstream thinking
fragments "Let" then " me think", exactly two thinking frames are emitted
carrying "Let" and "Let me think". -/
theorem thinking_full_value_content_delta_incremental :
    (∀ (st : PState) (s : String), s ≠ "" →
      pstep st (UEvent.thinkingDelta s) =
        ({ st with thinking := st.thinking ++ s },
          [Frame.thinking (st.thinking ++ s)]))
    ∧ (∀ (st : PState) (s : String), s ≠ "" →
      pstep st (UEvent.textDelta s) =
        ({ st with assistantMessage := st.assistantMessage ++ s },
          [Frame.contentDelta s]))
    ∧ (producerRun [UEvent.thinkingStart, UEvent.thinkingDelta "Let",
        UEvent.thinkingDelta " me think"]).2.filterMap
        (fun f => match f with | Frame.thinking c => some c | _ => none)
        = ["Let", "Let me think"] := by
  refine ⟨?_, ?_, by decide⟩
  · intro st s hs
    simp [pstep, hs]
  · intro st s hs
    simp [pstep, hs]

/-- Witness for C1 at a concrete input. -/
theorem thinking_full_value_witness :
    pstep pInit (UEvent.thinkingDelta "Let") =
      ({ pInit with thinking := pInit.thinking ++ "Let" },
        [Frame.thinking (pInit.thinking ++ "Let")]) :=
  thinking_full_value_content_delta_incremental.1 pInit "Let" (by decide)

/-- C2 counterexample.  After a streaming fragment gives tool t1 the input
a=1, a terminal assistant message restating t1 with input b=2 leaves the
stored input as exactly b=2 — a wholesale replacement, not the shallow
merge a=1,b=2 the claim requires for every fragment. -/
theorem final_message_input_replace_cex :
    ((producerRun [UEvent.toolFrag "t1" "" (some [("a", JVal.num 1)]),
        UEvent.assistantMsg [Part.toolUse "t1" "" (some [("b", JVal.num 2)])]]).1.toolCalls.map
        ToolCall.input) = [[("b", JVal.num 2)]]
    ∧ [[("b", JVal.num 2)]] ≠ [mergeInput [("a", JVal.num 1)] [("b", JVal.num 2)]] :=
  ⟨by decide, by decide⟩

/-- C2 (amended).  Tool input is shallow-merged across streaming fragments
bearing the same id (per key: the fragment's value wins, keys absent from
the fragment are preserved; merging a=1 with b=2 gives a=1,b=2 and a=1 with
a=2 gives a=2), but when the terminal assistant message restates an
already-seen id carrying an input, that input wholesale-replaces the stored
record. -/
theorem input_merge_streaming_replace_on_final :
    (∀ (old fresh : Record) (k : String),
      recLookup (mergeInput old fresh) k =
        ((recLookup fresh k).orElse (fun _ => recLookup old k)))
    ∧ mergeInput [("a", JVal.num 1)] [("b", JVal.num 2)]
        = [("a", JVal.num 1), ("b", JVal.num 2)]
    ∧ mergeInput [("a", JVal.num 1)] [("a", JVal.num 2)] = [("a", JVal.num 2)]
    ∧ (∀ (st : PState) (toolId name : String) (r : Record) (tc : ToolCall),
      toolId ≠ "" → findCall st.toolCalls toolId = some tc →
      findCall ((pstep st (UEvent.toolFrag toolId name (some r))).1.toolCalls) toolId
        = some { tc with name := if name = "" then tc.name else name,
                         input := mergeInput tc.input r })
    ∧ (∀ (st : PState) (toolId name : String) (r : Record) (tc : ToolCall),
      toolId ≠ "" → findCall st.toolCalls toolId = some tc →
      findCall ((pstep st (UEvent.assistantMsg [Part.toolUse toolId name (some r)])).1.toolCalls) toolId
        = some { tc with name := if name = "" then tc.name else name,
                         input := r }) := by
  refine ⟨recLookup_mergeInput, by decide, by decide, ?_, ?_⟩
  · intro st toolId name r tc hid hfind
    have hc : containsId st.toolCalls toolId = true := by
      rw [containsId_eq_isSome_findCall, hfind]
      rfl
    rw [pstep, if_neg hid, if_pos hc]
    exact findCall_updateFirst _ toolId (fragUpdate_id name (some r)) _ tc hfind
  · intro st toolId name r tc hid hfind
    have hc : containsId st.toolCalls toolId = true := by
      rw [containsId_eq_isSome_findCall, hfind]
      rfl
    have hscan : (scanFinal [Part.toolUse toolId name (some r)] st.toolCalls st.tick).1
        = updateFirst (finalUpdate name (some r)) toolId st.toolCalls := by
      rw [scanFinal, if_neg hid, if_pos hc]
      rfl
    rw [pstep]
    simp only [hscan]
    exact findCall_updateFirst _ toolId (finalUpdate_id name (some r)) _ tc hfind

/-- Witness for the amended C2 at a concrete input. -/
theorem input_merge_witness :
    findCall ((pstep ⟨"", "", [⟨"t1", "s", [("a", JVal.num 1)], none, "pending", some 0⟩], 1⟩
        (UEvent.toolFrag "t1" "" (some [("b", JVal.num 2)]))).1.toolCalls) "t1"
      = some ⟨"t1", "s", [("a", JVal.num 1), ("b", JVal.num 2)], none, "pending", some 0⟩ := by
  have h := input_merge_streaming_replace_on_final.2.2.2.1
    ⟨"", "", [⟨"t1", "s", [("a", JVal.num 1)], none, "pending", some 0⟩], 1⟩
    "t1" "" [("b", JVal.num 2)] ⟨"t1", "s", [("a", JVal.num 1)], none, "pending", some 0⟩
    (by decide) (by decide)
  rw [h]
  rfl

/-- C4.  Every tool id appearing in the terminal done frame's tool table has
already been announced in a dedicated tool_call frame emitted strictly
before the terminal frame. -/
theorem tool_ids_announced_before_done (events : List UEvent) (c : String)
    (th : Option String) (tcs : List ToolCall)
    (h : (producerRun events).2.getLast? = some (Frame.done c th (some tcs))) :
    ∀ tc ∈ tcs, ∃ tcs2, Frame.toolCall tcs2 ∈ (producerRun events).2.dropLast ∧
      tc.id ∈ tcs2.map ToolCall.id := by
  intro tc htc
  have hrun : (producerRun events).2
      = (pfold pInit events).2 ++ [doneFrame (pfold pInit events).1] := rfl
  rw [hrun, List.getLast?_concat] at h
  have hd : doneFrame (pfold pInit events).1 = Frame.done c th (some tcs) :=
    Option.some.inj h
  have htable : (pfold pInit events).1.toolCalls = tcs := by
    rw [doneFrame] at hd
    injection hd with h1 h2 h3
    rw [optTable] at h3
    by_cases hnil : (pfold pInit events).1.toolCalls = []
    · rw [if_pos hnil] at h3
      exact absurd h3 (by simp)
    · rw [if_neg hnil] at h3
      exact Option.some.inj h3
  have hann := pfold_announced events pInit []
    (by intro tid htid; simp [pInit] at htid)
  rw [List.nil_append] at hann
  have hmem : tc.id ∈ (pfold pInit events).1.toolCalls.map ToolCall.id := by
    rw [htable]
    exact List.mem_map_of_mem _ htc
  obtain ⟨tcs2, hmem2, hid2⟩ := hann tc.id hmem
  rw [hrun, List.dropLast_concat]
  exact ⟨tcs2, hmem2, hid2⟩

/-- Witness for C4 at a concrete input. -/
theorem tool_ids_announced_witness :
    (producerRun [UEvent.toolFrag "t1" "search" (some [("q", JVal.str "x")])]).2.getLast?
      = some (Frame.done "" none
          (some [⟨"t1", "search", [("q", JVal.str "x")], none, "pending", some 0⟩]))
    ∧ ∀ tc ∈ [(⟨"t1", "search", [("q", JVal.str "x")], none, "pending", some 0⟩ : ToolCall)],
        ∃ tcs2, Frame.toolCall tcs2 ∈
          (producerRun [UEvent.toolFrag "t1" "search" (some [("q", JVal.str "x")])]).2.dropLast ∧
          tc.id ∈ tcs2.map ToolCall.id :=
  ⟨by decide,
    tool_ids_announced_before_done
      [UEvent.toolFrag "t1" "search" (some [("q", JVal.str "x")])] "" none
      [⟨"t1", "search", [("q", JVal.str "x")], none, "pending", some 0⟩] (by decide)⟩

/-- C9.  Frames are by-value snapshots serialized at emission time: later
upstream events only append frames and never alter frames already emitted
(the frame list of a run is always a prefix of the frame list of any
extended run); concretely, after a later fragment merges more input into
tool t1 and a result settles it, the earlier tool_call frame still carries
the original input a=1 and pending status, while later frames and the final
producer state carry the merged, settled entry. -/
theorem frames_immutable_once_emitted :
    (∀ (es more : List UEvent), ∃ rest,
      (pfold pInit (es ++ more)).2 = (pfold pInit es).2 ++ rest)
    ∧ ((pfold pInit [UEvent.toolFrag "t1" "search" (some [("a", JVal.num 1)])]).2
        = [Frame.toolCall [⟨"t1", "search", [("a", JVal.num 1)], none, "pending", some 0⟩]])
    ∧ ((pfold pInit [UEvent.toolFrag "t1" "search" (some [("a", JVal.num 1)]),
          UEvent.toolFrag "t1" "" (some [("b", JVal.num 2)]),
          UEvent.resultEvent "t1" (JVal.str "ok") "success"]).2
        = [Frame.toolCall [⟨"t1", "search", [("a", JVal.num 1)], none, "pending", some 0⟩],
           Frame.toolCall [⟨"t1", "search", [("a", JVal.num 1), ("b", JVal.num 2)], none, "pending", some 0⟩],
           Frame.toolResult "t1" (JVal.str "ok")
             [⟨"t1", "search", [("a", JVal.num 1), ("b", JVal.num 2)], some (JVal.str "ok"), "success", some 0⟩]]) := by
  refine ⟨fun es more => ⟨(pfold (pfold pInit es).1 more).2, ?_⟩, by decide, by decide⟩
  rw [pfold_append]

/-- C10.  A result event whose tool_use_id is not present in the tool table
leaves the producer state unchanged and emits no frame at all. -/
theorem unmatched_result_dropped (st : PState) (toolUseId : String)
    (content : JVal) (subtype : String)
    (h : containsId st.toolCalls toolUseId = false) :
    pstep st (UEvent.resultEvent toolUseId content subtype) = (st, []) := by
  by_cases hid : toolUseId = ""
  · simp [pstep, hid]
  · simp [pstep, hid, h]

/-! ### Lemmas about the ChatInterface.tsx consumer -/

namespace ConsumerMain

theorem map_update_id_of_ne (mid : String) (g : Msg → Msg) :
    ∀ ms : List Msg, (∀ x ∈ ms, x.id ≠ mid) →
      ms.map (fun m => if m.id = mid then g m else m) = ms
  | [], _ => rfl
  | x :: rest, h => by
      have hx : x.id ≠ mid := h x (List.mem_cons_self x rest)
      simp only [List.map_cons, if_neg hx]
      rw [map_update_id_of_ne mid g rest (fun y hy => h y (List.mem_cons_of_mem x hy))]

/-- The in-place accumulation invariant: while a content entry is open, a
run of content_delta frames keeps exactly that entry, appending every delta
to its text and to the accumulator, without minting a new entry. -/
theorem crun_deltas_open :
    ∀ (ds : List String) (st : CState) (pre : List Msg) (m : Msg),
    st.contentMessageId = some m.id →
    st.messages = pre ++ [m] →
    (∀ x ∈ pre, x.id ≠ m.id) →
    m.content = some st.contentAccumulator →
    (crun st (ds.map Frame.contentDelta)).messages
        = pre ++ [{ m with content := some (sconcatFrom st.contentAccumulator ds) }]
      ∧ (crun st (ds.map Frame.contentDelta)).contentAccumulator
        = sconcatFrom st.contentAccumulator ds
      ∧ (crun st (ds.map Frame.contentDelta)).contentMessageId = some m.id
  | [], st, pre, m, hptr, hmsgs, hfresh, hacc => by
      refine ⟨?_, rfl, hptr⟩
      rw [List.map_nil, crun, sconcatFrom, hmsgs, ← hacc]
  | d :: rest, st, pre, m, hptr, hmsgs, hfresh, hacc => by
      have hstep : cstep st (Frame.contentDelta d) =
          { st with
            contentAccumulator := st.contentAccumulator ++ d
            messages := pre ++
              [{ m with content := some (st.contentAccumulator ++ d) }] } := by
        simp only [cstep, hptr]
        rw [hmsgs, List.map_append]
        rw [map_update_id_of_ne m.id _ pre hfresh]
        simp
      rw [List.map_cons, crun, hstep]
      exact crun_deltas_open rest _ pre
        { m with content := some (st.contentAccumulator ++ d) }
        hptr rfl hfresh rfl

end ConsumerMain

/-! ### Lemmas about the part_002 consumer -/

namespace ConsumerAlt

theorem mkToolMsgs_nil_of_all_contained :
    ∀ (tcs : List ToolCall) (existing : List String) (base now counter : Nat),
    (∀ tc ∈ tcs, existing.contains tc.id = true) →
    mkToolMsgs tcs existing base now counter = []
  | [], _, _, _, _, _ => rfl
  | tc :: rest, existing, base, now, counter, h => by
      rw [mkToolMsgs, if_pos (h tc (List.mem_cons_self tc rest))]
      exact mkToolMsgs_nil_of_all_contained rest existing base now counter
        (fun y hy => h y (List.mem_cons_of_mem tc hy))

theorem mkToolMsgs_length :
    ∀ (tcs : List ToolCall) (existing : List String) (base now counter : Nat),
    (mkToolMsgs tcs existing base now counter).length
      = (tcs.filter (fun tc => !(existing.contains tc.id))).length
  | [], _, _, _, _ => rfl
  | tc :: rest, existing, base, now, counter => by
      by_cases h : existing.contains tc.id = true
      · have hm : tc.id ∈ existing := by simpa using h
        rw [mkToolMsgs, if_pos h]
        simp [List.filter_cons, hm, mkToolMsgs_length rest existing base now counter]
      · have hm : tc.id ∉ existing := by simpa using h
        rw [mkToolMsgs, if_neg h]
        simp [List.filter_cons, hm, mkToolMsgs_length rest existing base now (counter + 1)]

/-- A tool_result frame whose id already has a result entry leaves the
state untouched. -/
theorem vstep_toolResult_of_resultExists (st : VState) (tid : String) (r : JVal)
    (tcs : List ToolCall) (om : Msg)
    (hfind : st.messages.find? (msgHasTool tid) = some om)
    (hex : st.messages.any (fun m => msgHasTool tid m && m.eventType == "tool_result")
      = true) :
    vstep st (Frame.toolResult tid r tcs) = st := by
  simp only [vstep]
  rw [hfind, hex]
  simp

/-- A tool_result frame whose id has a matching call entry but no result
entry yet appends exactly one result message carrying the original call's
name and input, the new result and the hard-coded success status. -/
theorem vstep_toolResult_new (st : VState) (tid : String) (r : JVal)
    (tcs : List ToolCall) (om : Msg) (otc : ToolCall)
    (hfind : st.messages.find? (msgHasTool tid) = some om)
    (hnone : st.messages.any (fun m => msgHasTool tid m && m.eventType == "tool_result")
      = false)
    (hom : om.toolCall = some otc) :
    vstep st (Frame.toolResult tid r tcs)
      = { st with messages := st.messages ++
          [⟨"result-" ++ tid ++ "-" ++ toString st.now, "assistant", none,
            some ⟨tid, otc.name, otc.input, some r, "success", some (om.timestamp + 500)⟩,
            none, "tool_result", om.timestamp + 500⟩] } := by
  simp only [vstep]
  rw [hfind, hnone]
  simp [hom]

theorem existingToolIds_map (g : Msg → Msg) (hg : ∀ m, (g m).toolCall = m.toolCall) :
    ∀ ms : List Msg, existingToolIds (ms.map g) = existingToolIds ms
  | [] => rfl
  | m :: rest => by
      have ih := existingToolIds_map g hg rest
      simp only [existingToolIds] at ih ⊢
      simp only [List.map_cons, List.filterMap_cons, hg]
      cases m.toolCall.map (fun tc => tc.id) <;> simp [ih]

end ConsumerAlt

/-! ### Claim theorems about the endpoint preamble -/

theorem jsGet_of_ne_null (body : Json) (key : String) (h : body ≠ Json.null) :
    jsGet body key = .ok (body.getField key) := by
  cases body with
  | null => exact absurd rfl h
  | jbool b => rfl
  | jnum n => rfl
  | jstr s => rfl
  | jarr xs => rfl
  | jobj fs => rfl

/-- C8 counterexample.  A request body that is JSON null contains neither a
message string nor a messages array, yet the endpoint returns 500, not 400:
the property access body.messages throws a TypeError that the catch-all
converts into a 500 JSON response. -/
theorem null_body_returns_500_cex :
    chatPOST (some "k") Json.null = PostResult.errJson 500 (nullReadMsg "messages")
    ∧ (500 : Nat) ≠ 400 :=
  ⟨rfl, by decide⟩

/-- C8 (amended).  A missing credential, or one that is empty after
trimming, yields a non-streaming HTTP 500 JSON error before the body is
even parsed; a request body other than JSON null whose messages field is
not an array and whose message field is not a string yields a non-streaming
HTTP 400 JSON error (a JSON null body instead yields a 500 via the
catch-all); an errJson result is never the streaming result, so no SSE
streaming begins in any of these cases. -/
theorem precondition_errors_before_streaming :
    (∀ body : Json, chatPOST none body = PostResult.errJson 500 apiKeyMissingMsg)
    ∧ (∀ (key : String) (body : Json), jsTrim key = "" →
        chatPOST (some key) body = PostResult.errJson 500 apiKeyMissingMsg)
    ∧ (∀ (key : String) (body : Json), jsTrim key ≠ "" → body ≠ Json.null →
        (∀ xs, body.getField "messages" ≠ some (Json.jarr xs)) →
        (∀ s, body.getField "message" ≠ some (Json.jstr s)) →
        chatPOST (some key) body = PostResult.errJson 400 badBodyMsg)
    ∧ (∀ (status : Nat) (msg : String) (messages : List Json),
        PostResult.errJson status msg ≠ PostResult.stream messages) := by
  refine ⟨fun body => rfl, ?_, ?_, fun status msg messages h => PostResult.noConfusion h⟩
  · intro key body hk
    simp only [chatPOST, chatPOSTCore, Option.getD]
    rw [if_pos hk]
  · intro key body hk hnull h1 h2
    simp only [chatPOST, chatPOSTCore, Option.getD]
    rw [if_neg hk, jsGet_of_ne_null body "messages" hnull,
      jsGet_of_ne_null body "message" hnull]
    cases hmf : body.getField "messages" with
    | none =>
        cases hmg : body.getField "message" with
        | none => rfl
        | some j =>
            cases j with
            | jstr s => exact absurd hmg (h2 s)
            | null => rfl
            | jbool b => rfl
            | jnum n => rfl
            | jarr xs => rfl
            | jobj fs => rfl
    | some j =>
        cases j with
        | jarr xs => exact absurd hmf (h1 xs)
        | null =>
            cases hmg : body.getField "message" with
            | none => rfl
            | some j' =>
                cases j' with
                | jstr s => exact absurd hmg (h2 s)
                | null => rfl
                | jbool b => rfl
                | jnum n => rfl
                | jarr xs => rfl
                | jobj fs => rfl
        | jbool b =>
            cases hmg : body.getField "message" with
            | none => rfl
            | some j' =>
                cases j' with
                | jstr s => exact absurd hmg (h2 s)
                | null => rfl
                | jbool b' => rfl
                | jnum n => rfl
                | jarr xs => rfl
                | jobj fs => rfl
        | jnum n =>
            cases hmg : body.getField "message" with
            | none => rfl
            | some j' =>
                cases j' with
                | jstr s => exact absurd hmg (h2 s)
                | null => rfl
                | jbool b => rfl
                | jnum n' => rfl
                | jarr xs => rfl
                | jobj fs => rfl
        | jstr s =>
            cases hmg : body.getField "message" with
            | none => rfl
            | some j' =>
                cases j' with
                | jstr s' => exact absurd hmg (h2 s')
                | null => rfl
                | jbool b => rfl
                | jnum n => rfl
                | jarr xs => rfl
                | jobj fs => rfl
        | jobj fs =>
            cases hmg : body.getField "message" with
            | none => rfl
            | some j' =>
                cases j' with
                | jstr s => exact absurd hmg (h2 s)
                | null => rfl
                | jbool b => rfl
                | jnum n => rfl
                | jarr xs => rfl
                | jobj fs' => rfl

/-- Witness for the amended C8 at a concrete input: a well-formed credential
with the empty-object body of the malformed-body scenario. -/
theorem precondition_errors_witness :
    jsTrim "k" ≠ "" ∧ Json.jobj [] ≠ Json.null
    ∧ chatPOST (some "k") (Json.jobj []) = PostResult.errJson 400 badBodyMsg :=
  ⟨by decide, fun h => Json.noConfusion h,
    precondition_errors_before_streaming.2.2.1 "k" (Json.jobj []) (by decide)
      (fun h => Json.noConfusion h)
      (fun xs h => Option.noConfusion h)
      (fun s h => Option.noConfusion h)⟩

/-- Witness for C10 at a concrete input. -/
theorem unmatched_result_witness :
    containsId [(⟨"t1", "n", [], none, "pending", some 0⟩ : ToolCall)] "t2" = false
    ∧ pstep ⟨"", "", [⟨"t1", "n", [], none, "pending", some 0⟩], 1⟩
        (UEvent.resultEvent "t2" (JVal.num 1) "success") =
        (⟨"", "", [⟨"t1", "n", [], none, "pending", some 0⟩], 1⟩, []) :=
  ⟨by decide,
    unmatched_result_dropped ⟨"", "", [⟨"t1", "n", [], none, "pending", some 0⟩], 1⟩
      "t2" (JVal.num 1) "success" (by decide)⟩

/-! ### Claim theorems about the consumers -/

/-- C3 counterexample.  In the ChatInterface.tsx consumer, a tool_call frame
whose only id is already represented by an existing timeline entry still
appends a second entry: the handler appends one message per frame with no
dedup by id. -/
theorem main_consumer_tool_call_dup_cex :
    (ConsumerMain.cstep
      ⟨[⟨"tool-call-0", "assistant", none,
          some ⟨"t1", "w", [], none, "pending", some 0⟩, none, "tool_call", 0⟩],
        "", none, true, 1⟩
      (Frame.toolCall [⟨"t1", "w", [], none, "pending", some 0⟩])).messages.length = 2
    ∧ (2 : Nat) ≠ 1 :=
  ⟨by decide, by decide⟩

/-- C3 (amended).  Dedup by id holds in the part_002 consumer: a tool_call
frame all of whose ids are already represented appends nothing, and in
general exactly one new entry is appended per id of the frame's table not
yet represented.  The ChatInterface.tsx consumer instead appends exactly
one entry per nonempty tool_call frame, carrying the frame's first tool
call, with no dedup by id. -/
theorem tool_call_dedup_variants :
    (∀ (st : ConsumerAlt.VState) (tcs : List ToolCall),
      (∀ tc ∈ tcs, (existingToolIds st.messages).contains tc.id = true) →
      (ConsumerAlt.vstep st (Frame.toolCall tcs)).messages = st.messages)
    ∧ (∀ (st : ConsumerAlt.VState) (tcs : List ToolCall),
      (ConsumerAlt.vstep st (Frame.toolCall tcs)).messages.length
        = st.messages.length
          + (tcs.filter (fun tc => !((existingToolIds st.messages).contains tc.id))).length)
    ∧ (∀ (st : ConsumerMain.CState) (tc : ToolCall) (rest : List ToolCall),
      (ConsumerMain.cstep st (Frame.toolCall (tc :: rest))).messages
        = st.messages ++
          [⟨"tool-call-" ++ toString st.tick, "assistant", none, some tc, none,
            "tool_call", st.tick⟩]) := by
  refine ⟨?_, ?_, fun st tc rest => rfl⟩
  · intro st tcs h
    simp only [ConsumerAlt.vstep]
    rw [ConsumerAlt.mkToolMsgs_nil_of_all_contained tcs _ _ _ _ h]
    simp
  · intro st tcs
    simp only [ConsumerAlt.vstep, List.length_append]
    rw [ConsumerAlt.mkToolMsgs_length]

/-- Witness for the amended C3 at a concrete input: a frame restating an
already-represented id appends nothing in the part_002 consumer. -/
theorem tool_call_dedup_witness :
    (ConsumerAlt.vstep
      ⟨[⟨"assistant-5", "assistant", some "", none, none, "message", 5⟩,
        ⟨"tool-t1-6", "assistant", none,
          some ⟨"t1", "w", [], none, "pending", some 6⟩, none, "tool_call", 6⟩],
        "assistant-5", 5, true, 7⟩
      (Frame.toolCall [⟨"t1", "w", [("x", JVal.num 1)], none, "pending", some 0⟩])).messages
      = [⟨"assistant-5", "assistant", some "", none, none, "message", 5⟩,
        ⟨"tool-t1-6", "assistant", none,
          some ⟨"t1", "w", [], none, "pending", some 6⟩, none, "tool_call", 6⟩] :=
  tool_call_dedup_variants.1
    ⟨[⟨"assistant-5", "assistant", some "", none, none, "message", 5⟩,
      ⟨"tool-t1-6", "assistant", none,
        some ⟨"t1", "w", [], none, "pending", some 6⟩, none, "tool_call", 6⟩],
      "assistant-5", 5, true, 7⟩
    [⟨"t1", "w", [("x", JVal.num 1)], none, "pending", some 0⟩]
    (by decide)

/-- C5.  In the ChatInterface.tsx consumer, a run of content_delta frames
starting with no open content entry appends exactly one new timeline entry
whose text is the concatenation d1 ++ ... ++ dn of the deltas in emission
order, updated in place (same identity) while the accumulator tracks the
same concatenation; a terminal done or assistant frame resets the open
content entry pointer and the accumulator while leaving the timeline
untouched, so the first delta after a terminal frame appends a fresh
entry. -/
theorem content_delta_accumulation :
    (∀ (st : ConsumerMain.CState) (ds : List String),
      st.contentMessageId = none →
      st.contentAccumulator = "" →
      (∀ m ∈ st.messages, m.id ≠ ConsumerMain.contentIdFor st.tick) →
      ds ≠ [] →
      (ConsumerMain.crun st (ds.map Frame.contentDelta)).messages
          = st.messages ++
            [⟨ConsumerMain.contentIdFor st.tick, "assistant", some (sconcat ds),
              none, none, "content_delta", st.tick⟩]
        ∧ (ConsumerMain.crun st (ds.map Frame.contentDelta)).contentAccumulator
            = sconcat ds
        ∧ (ConsumerMain.crun st (ds.map Frame.contentDelta)).contentMessageId
            = some (ConsumerMain.contentIdFor st.tick))
    ∧ (∀ (st : ConsumerMain.CState) (c : String) (th : Option String)
        (tcs : Option (List ToolCall)),
      ConsumerMain.cstep st (Frame.done c th tcs)
          = { st with contentAccumulator := "", contentMessageId := none }
      ∧ ConsumerMain.cstep st (Frame.assistant c th tcs)
          = { st with contentAccumulator := "", contentMessageId := none }) := by
  refine ⟨?_, fun st c th tcs => ⟨rfl, rfl⟩⟩
  intro st ds hptr hacc hfresh hne
  cases ds with
  | nil => exact absurd rfl hne
  | cons d rest =>
      have hstep : ConsumerMain.cstep st (Frame.contentDelta d) =
          { st with
            contentAccumulator := st.contentAccumulator ++ d
            contentMessageId := some (ConsumerMain.contentIdFor st.tick)
            messages := st.messages ++
              [⟨ConsumerMain.contentIdFor st.tick, "assistant",
                some (st.contentAccumulator ++ d), none, none, "content_delta",
                st.tick⟩]
            tick := st.tick + 1 } := by
        simp only [ConsumerMain.cstep, hptr]
      have hinv := ConsumerMain.crun_deltas_open rest
        (ConsumerMain.cstep st (Frame.contentDelta d)) st.messages
        ⟨ConsumerMain.contentIdFor st.tick, "assistant",
          some (st.contentAccumulator ++ d), none, none, "content_delta", st.tick⟩
        (by rw [hstep]) (by rw [hstep]) hfresh (by rw [hstep])
      rw [List.map_cons, ConsumerMain.crun]
      have hconcat : sconcat (d :: rest) = sconcatFrom (st.contentAccumulator ++ d) rest := by
        rw [sconcat, sconcatFrom, hacc]
      rw [hconcat]
      have hacc2 : (ConsumerMain.cstep st (Frame.contentDelta d)).contentAccumulator
          = st.contentAccumulator ++ d := by rw [hstep]
      refine ⟨?_, ?_, ?_⟩
      · rw [hinv.1, hacc2]
      · rw [hinv.2.1, hacc2]
      · exact hinv.2.2

/-- Witness for C5 at a concrete input. -/
theorem content_delta_accumulation_witness :
    (ConsumerMain.crun ⟨[], "", none, true, 0⟩
        (["Hel", "lo"].map Frame.contentDelta)).messages
      = [] ++ [⟨ConsumerMain.contentIdFor 0, "assistant", some (sconcat ["Hel", "lo"]),
          none, none, "content_delta", 0⟩] :=
  (content_delta_accumulation.1 ⟨[], "", none, true, 0⟩ ["Hel", "lo"] rfl rfl
    (by simp) (by decide)).1

/-- C6 counterexample.  In the ChatInterface.tsx consumer, applying the very
same tool_result frame twice creates two result entries, not one: the
handler appends unconditionally, with no idempotence check. -/
theorem main_consumer_tool_result_dup_cex :
    ConsumerAlt.resultCount
      (ConsumerMain.crun ⟨[], "", none, true, 0⟩
        [Frame.toolResult "t1" (JVal.str "out") [],
         Frame.toolResult "t1" (JVal.str "out") []]).messages "t1" = 2
    ∧ (2 : Nat) ≠ 1 :=
  ⟨by decide, by decide⟩

/-- C6 (amended).  The Producer derives the matched entry's status solely
from the upstream subtype (success maps to success, anything else to error)
and emits one tool_result frame; the part_002 consumer is idempotent —
replaying the same tool_result frame yields exactly one result entry (whose
status is hard-coded success); the ChatInterface.tsx consumer appends a new
result entry with hard-coded status success on every tool_result frame. -/
theorem tool_result_status_and_idempotence :
    (∀ (st : PState) (toolUseId : String) (content : JVal) (subtype : String)
        (tc : ToolCall),
      toolUseId ≠ "" → findCall st.toolCalls toolUseId = some tc →
      findCall ((pstep st (UEvent.resultEvent toolUseId content subtype)).1.toolCalls)
          toolUseId
        = some { tc with result := some content,
                         status := if subtype = "success" then "success" else "error" }
      ∧ ∃ table, (pstep st (UEvent.resultEvent toolUseId content subtype)).2
          = [Frame.toolResult toolUseId content table])
    ∧ (∀ (st : ConsumerAlt.VState) (toolUseId : String) (r : JVal)
        (tcs : List ToolCall),
      (st.messages.find? (msgHasTool toolUseId)).isSome = true →
      st.messages.any (fun m => msgHasTool toolUseId m && m.eventType == "tool_result")
          = false →
      ConsumerAlt.resultCount
          (ConsumerAlt.vstep (ConsumerAlt.vstep st (Frame.toolResult toolUseId r tcs))
            (Frame.toolResult toolUseId r tcs)).messages toolUseId = 1
      ∧ (ConsumerAlt.vstep (ConsumerAlt.vstep st (Frame.toolResult toolUseId r tcs))
            (Frame.toolResult toolUseId r tcs)).messages
        = (ConsumerAlt.vstep st (Frame.toolResult toolUseId r tcs)).messages)
    ∧ (∀ (st : ConsumerMain.CState) (toolUseId : String) (r : JVal)
        (tcs : List ToolCall),
      (ConsumerMain.cstep st (Frame.toolResult toolUseId r tcs)).messages
        = st.messages ++
          [⟨"tool-result-" ++ toString st.tick, "assistant", none,
            some ⟨toolUseId, "Tool Result", [], some r, "success", none⟩, none,
            "tool_result", st.tick⟩]) := by
  refine ⟨?_, ?_, fun st toolUseId r tcs => rfl⟩
  · intro st toolUseId content subtype tc hid hfind
    have hc : containsId st.toolCalls toolUseId = true := by
      rw [containsId_eq_isSome_findCall, hfind]
      rfl
    rw [pstep, if_neg hid, if_pos hc]
    refine ⟨?_, ⟨_, rfl⟩⟩
    exact findCall_updateFirst
      (fun tc =>
        { tc with result := some content,
                  status := if subtype = "success" then "success" else "error" })
      toolUseId (fun x => rfl) st.toolCalls tc hfind
  · intro st toolUseId r tcs hsome hnone
    cases hfind : st.messages.find? (msgHasTool toolUseId) with
    | none => rw [hfind] at hsome; exact absurd hsome (by simp)
    | some om =>
        have hp : msgHasTool toolUseId om = true := List.find?_some hfind
        cases hom : om.toolCall with
        | none => rw [msgHasTool, hom] at hp; exact absurd hp (by simp)
        | some otc =>
            have hstep1 := ConsumerAlt.vstep_toolResult_new st toolUseId r tcs om otc
              hfind hnone hom
            have hex2 : ((ConsumerAlt.vstep st (Frame.toolResult toolUseId r tcs)).messages.any
                (fun m => msgHasTool toolUseId m && m.eventType == "tool_result")) = true := by
              rw [hstep1]
              simp only [List.any_append, hnone]
              simp [msgHasTool]
            have hfind2 : ((ConsumerAlt.vstep st (Frame.toolResult toolUseId r tcs)).messages.find?
                (msgHasTool toolUseId)) = some om := by
              rw [hstep1]
              simp only [List.find?_append, hfind]
              rfl
            have hstep2 := ConsumerAlt.vstep_toolResult_of_resultExists
              (ConsumerAlt.vstep st (Frame.toolResult toolUseId r tcs))
              toolUseId r tcs om hfind2 hex2
            refine ⟨?_, by rw [hstep2]⟩
            rw [hstep2, hstep1]
            rw [ConsumerAlt.resultCount, List.filter_append, List.length_append]
            have hfilter0 : st.messages.filter
                (fun m => msgHasTool toolUseId m && m.eventType == "tool_result") = [] := by
              rw [List.filter_eq_nil_iff]
              intro a ha
              have := (List.any_eq_false).mp hnone a ha
              simpa using this
            rw [hfilter0]
            simp [msgHasTool]

/-- Witness for the amended C6 at a concrete input. -/
theorem tool_result_status_witness :
    ConsumerAlt.resultCount
      (ConsumerAlt.vstep (ConsumerAlt.vstep
          ⟨[⟨"tool-t1-6", "assistant", none,
              some ⟨"t1", "w", [], none, "pending", some 6⟩, none, "tool_call", 6⟩],
            "assistant-5", 5, true, 7⟩
          (Frame.toolResult "t1" (JVal.str "ok") []))
        (Frame.toolResult "t1" (JVal.str "ok") [])).messages "t1" = 1 :=
  (tool_result_status_and_idempotence.2.1
    ⟨[⟨"tool-t1-6", "assistant", none,
        some ⟨"t1", "w", [], none, "pending", some 6⟩, none, "tool_call", 6⟩],
      "assistant-5", 5, true, 7⟩
    "t1" (JVal.str "ok") [] (by decide) (by decide)).1

/-- C7 counterexample.  In the ChatInterface.tsx consumer, a terminal frame
listing a tool id never seen before creates no timeline entry at all: the
done/assistant handler performs no tool reconciliation. -/
theorem main_consumer_no_terminal_reconciliation_cex :
    (ConsumerMain.cstep ⟨[], "", none, true, 0⟩
      (Frame.done "hi" none (some [⟨"t9", "w", [], none, "pending", some 0⟩]))).messages.length
      = 0
    ∧ (0 : Nat) ≠ 1 :=
  ⟨by decide, by decide⟩

/-- C7 (amended).  Terminal reconciliation happens only in the part_002
consumer: there, a done frame carrying a tool list creates exactly one new
entry per id not yet represented in the timeline.  The ChatInterface.tsx
consumer's terminal handling creates no entries and clears the open content
entry pointer.  The loading indicator is turned off when stream processing
finishes (the finally block), in both variants. -/
theorem terminal_reconciliation_variants :
    (∀ (st : ConsumerAlt.VState) (c : String) (th : Option String)
        (l : List ToolCall) (am : Msg),
      st.messages.find? (fun m => m.id == st.assistantMessageId) = some am →
      (ConsumerAlt.vstep st (Frame.done c th (some l))).messages.length
        = st.messages.length
          + (l.filter (fun tc => !((existingToolIds st.messages).contains tc.id))).length)
    ∧ (∀ (st : ConsumerMain.CState) (c : String) (th : Option String)
        (tcs : Option (List ToolCall)),
      (ConsumerMain.cstep st (Frame.done c th tcs)).messages = st.messages
      ∧ (ConsumerMain.cstep st (Frame.done c th tcs)).contentMessageId = none)
    ∧ (∀ (st : ConsumerMain.CState) (fs : List Frame),
      (ConsumerMain.sendMessageRun st fs).isLoading = false)
    ∧ (∀ (st : ConsumerAlt.VState) (fs : List Frame),
      (ConsumerAlt.vrun st fs).isLoading = false) := by
  refine ⟨?_, fun st c th tcs => ⟨rfl, rfl⟩, fun st fs => rfl, ?_⟩
  · intro st c th l am hfind
    simp only [ConsumerAlt.vstep, ConsumerAlt.vterminal]
    rw [hfind]
    simp only [List.length_append, List.length_map]
    rw [ConsumerAlt.mkToolMsgs_length]
    congr 2
    rw [ConsumerAlt.existingToolIds_map]
    intro m
    by_cases h : m.id = st.assistantMessageId <;> simp [h]
  · intro st fs
    induction fs generalizing st with
    | nil => rfl
    | cons f rest ih =>
        cases f with
        | error e => rfl
        | thinking c => exact ih _
        | contentDelta d => exact ih _
        | toolCall tcs => exact ih _
        | toolResult a b c2 => exact ih _
        | assistant a b c2 => exact ih _
        | done a b c2 => exact ih _

/-- Witness for the amended C7 at a concrete input. -/
theorem terminal_reconciliation_witness :
    (ConsumerAlt.vstep
      ⟨[⟨"assistant-5", "assistant", some "", none, none, "message", 5⟩],
        "assistant-5", 5, true, 7⟩
      (Frame.done "hi" none
        (some [⟨"t9", "w", [], none, "pending", some 0⟩]))).messages.length
      = 1 + 1 :=
  Trans.trans
    (terminal_reconciliation_variants.1
      ⟨[⟨"assistant-5", "assistant", some "", none, none, "message", 5⟩],
        "assistant-5", 5, true, 7⟩
      "hi" none [⟨"t9", "w", [], none, "pending", some 0⟩]
      ⟨"assistant-5", "assistant", some "", none, none, "message", 5⟩
      (by decide))
    (by decide)

end AgentStream
